import Mathlib

/-!
Shallow embedding of the rom-loader-cli repository (Rust sources
`src/rom_launcher.rs`, `src/rom_scanner.rs`, `src/main.rs`,
`src/emulator_config.rs`).

Modelling choices:
* Filesystem paths are modelled as lists of parsed components, the way
  Rust's `std::path::Components` parses a Unix path (an optional leading
  root, then `.` / `..` / normal components).  `RPath.parent`,
  `RPath.file_name`, `RPath.file_stem` and `RPath.extension` translate the
  corresponding `std::path::Path` methods.
* The filesystem itself is an oracle `FS` giving each path its file type
  (`exists` / `is_file` / `is_dir` in the Rust code), plus the traversal
  order the `walkdir` crate would yield for a directory (the crate is an
  external collaborator of the repository).
* Process spawning is an oracle `run : List String → SpawnOutcome`.  A
  `LaunchResult` records the returned `Result`, the list of argument
  vectors actually handed to `spawn` (so "no process was spawned" and
  "the launch is not retried" are observable), and the structured
  warnings / diagnostics the code prints with `eprintln!`.
* Rust `char::to_ascii_lowercase` / `str::to_lowercase` are modelled by
  ASCII-only lowercasing; the strings the code matches on ("mame",
  "retroarch", extension names) are ASCII, so Unicode-only differences
  are outside the claims' scope.
-/

/-- ASCII lowercasing of a single character, as Rust's
`u8::to_ascii_lowercase` folds bytes `A`..`Z`. -/
def asciiLower (c : Char) : Char :=
  if 65 ≤ c.toNat ∧ c.toNat ≤ 90 then Char.ofNat (c.toNat + 32) else c

/-- Model of Rust `str::to_lowercase` restricted to ASCII folding. -/
def to_lowercase (s : String) : String :=
  ⟨s.data.map asciiLower⟩

/-- Model of Rust `str::eq_ignore_ascii_case`: equality after ASCII case
folding of both sides. -/
def eq_ignore_ascii_case (a b : String) : Bool :=
  a.data.map asciiLower == b.data.map asciiLower

/-- Does `pat` start the char list `s`?  (Helper for substring search.) -/
def startsWithList : List Char → List Char → Bool
  | [], _ => true
  | _ :: _, [] => false
  | p :: ps, c :: cs => p == c && startsWithList ps cs

/-- Does `pat` occur contiguously somewhere in `s`? -/
def containsAux (pat : List Char) : List Char → Bool
  | [] => startsWithList pat []
  | c :: rest => startsWithList pat (c :: rest) || containsAux pat rest

/-- Model of Rust `str::contains` with a string pattern. -/
def containsSub (s pat : String) : Bool :=
  containsAux pat.data s.data

/-- One parsed component of a Unix path, as in `std::path::Component`
(prefixes do not occur on Unix). -/
inductive Component where
  | rootDir
  | curDir
  | parentDir
  | normal (s : String)
deriving DecidableEq, Repr

/-- A filesystem path, as the list of components Rust's
`Path::components` iterator yields. -/
structure RPath where
  components : List Component
deriving DecidableEq, Repr

/-- Render a component the way `Path::display` shows it. -/
def Component.render : Component → String
  | .rootDir => "/"
  | .curDir => "."
  | .parentDir => ".."
  | .normal s => s

/-- Render a path back to the string an argument vector would carry
(`Command::arg` passes the path's OS string). -/
def RPath.toString (p : RPath) : String :=
  match p.components with
  | [] => ""
  | Component.rootDir :: rest =>
      "/" ++ String.intercalate "/" (rest.map Component.render)
  | comps => String.intercalate "/" (comps.map Component.render)

/-- Model of `Path::parent`: drop the final component; `None` for the
empty path and for a bare root. -/
def RPath.parent (p : RPath) : Option RPath :=
  match p.components with
  | [] => none
  | [Component.rootDir] => none
  | _ => some ⟨p.components.dropLast⟩

/-- Model of `Path::file_name`: the final component when it is a normal
component. -/
def RPath.file_name (p : RPath) : Option String :=
  match p.components.getLast? with
  | some (Component.normal s) => some s
  | _ => none

/-- Split a list of characters at its last dot: the part before that dot
and the part after it, or `none` when no dot occurs. -/
def splitAtLastDot : List Char → List Char × Option (List Char)
  | [] => ([], none)
  | c :: cs =>
    match splitAtLastDot cs with
    | (st, some ext) => (c :: st, some ext)
    | (_, none) => if c = '.' then ([], some cs) else (c :: cs, none)

/-- Split a file name at its last dot, as Rust's private
`split_file_at_dot` does: `".."`, names without a dot, and names whose
only dot is the leading character have no extension. -/
def splitStemExt (name : String) : String × Option String :=
  if name = ".." then (name, none)
  else
    match splitAtLastDot name.data with
    | (_, none) => (name, none)
    | ([], some _) => (name, none)
    | (st, some ext) => (⟨st⟩, some ⟨ext⟩)

/-- Model of `Path::file_stem`. -/
def RPath.file_stem (p : RPath) : Option String :=
  p.file_name.map (fun n => (splitStemExt n).1)

/-- Model of `Path::extension`. -/
def RPath.extension (p : RPath) : Option String :=
  p.file_name.bind (fun n => (splitStemExt n).2)

/-- What kind of entry a path resolves to, for the `exists` / `is_file` /
`is_dir` checks (`other` is an entry that is neither a regular file nor a
directory, e.g. a device node). -/
inductive FileType where
  | file
  | dir
  | other
deriving DecidableEq, Repr, BEq

/-- Filesystem oracle: the type of each existing path, and the sequence
of paths a recursive `walkdir` traversal of a directory yields. -/
structure FS where
  lookup : RPath → Option FileType
  walk : RPath → List RPath

/-- Model of `Path::exists`. -/
def FS.pathExists (fs : FS) (p : RPath) : Bool :=
  (fs.lookup p).isSome

/-- Model of `Path::is_file`. -/
def FS.isFile (fs : FS) (p : RPath) : Bool :=
  match fs.lookup p with
  | some FileType.file => true
  | _ => false

/-- Model of `Path::is_dir`. -/
def FS.isDir (fs : FS) (p : RPath) : Bool :=
  match fs.lookup p with
  | some FileType.dir => true
  | _ => false

/-- The error kinds the launcher and scanner produce, named as in the
specification (`io::ErrorKind::NotFound`, `InvalidInput`, the spawn `?`
failure, and the non-zero-exit `Other` error of `rom_launcher.rs`). -/
inductive LaunchError where
  | NotFoundError
  | InvalidInputError
  | SpawnFailed
  | ProcessFailed
deriving DecidableEq, Repr

/-- Structured record of the `eprintln!` diagnostics `launch_rom` emits. -/
inductive Warning where
  | noParentDir
  | coreMissing (core : RPath)
  | noCoreConfigured
  | processNonZero (code : Int)
  | processStderr (text : String)
deriving DecidableEq, Repr

/-- Output of a spawned process that ran to termination. -/
structure ProcessOutput where
  exitCode : Int
  stderr : String
deriving DecidableEq, Repr

/-- Result of asking the OS to start a process: either `spawn` itself
fails, or the process runs and terminates with an output. -/
inductive SpawnOutcome where
  | spawnErr
  | ran (out : ProcessOutput)
deriving DecidableEq, Repr

/-- Observable outcome of one `launch_rom` call: the returned `Result`,
every argument vector passed to `spawn` (in order), and the structured
warnings printed along the way. -/
structure LaunchResult where
  result : Except LaunchError Unit
  spawns : List (List String)
  warnings : List Warning
deriving Repr

/-- Outcome of the argument-vector construction part of `launch_rom`
(source lines 40–101): either an early `Err` return, or a built argument
vector, in both cases with the warnings printed so far. -/
inductive BuildOutcome where
  | fail (e : LaunchError) (warnings : List Warning)
  | built (args : List String) (warnings : List Warning)
deriving DecidableEq, Repr

/-- Translation of the convention-selection and argument-building part of
`launch_rom` (`rom_launcher.rs` lines 40–101): lowercase the emulator
name, try the MAME convention, then the RetroArch convention, then the
generic one. -/
def buildCommand (fs : FS) (emulator_name : String) (rom_path : RPath)
    (core_path : Option RPath) (system_name : Option String) : BuildOutcome :=
  let emulator_name_lower := to_lowercase emulator_name
  if containsSub emulator_name_lower "mame" then
    match system_name with
    | some sys_name =>
        BuildOutcome.built [sys_name, "-cart", rom_path.toString] []
    | none =>
        let pre : List String × List Warning :=
          match rom_path.parent with
          | some parent_dir => (["-rompath", parent_dir.toString], [])
          | none => ([], [Warning.noParentDir])
        match rom_path.file_stem with
        | some rom_file_name => BuildOutcome.built (pre.1 ++ [rom_file_name]) pre.2
        | none => BuildOutcome.fail LaunchError.InvalidInputError pre.2
  else if containsSub emulator_name_lower "retroarch" then
    match core_path with
    | some core =>
        let ws := if !fs.pathExists core || !fs.isFile core
                  then [Warning.coreMissing core] else []
        BuildOutcome.built ["-L", core.toString, rom_path.toString] ws
    | none =>
        BuildOutcome.built [rom_path.toString] [Warning.noCoreConfigured]
  else
    BuildOutcome.built [rom_path.toString] []

/-- Translation of the spawn-and-classify part of `launch_rom`
(`rom_launcher.rs` lines 103–120): spawn once with the built argument
vector, wait, succeed exactly on a zero exit status, and on a non-zero
status report the status and the captured stderr (when non-empty). -/
def runCommand (run : List String → SpawnOutcome) (args : List String)
    (ws : List Warning) : LaunchResult :=
  match run args with
  | SpawnOutcome.spawnErr =>
      { result := Except.error LaunchError.SpawnFailed
        spawns := [args], warnings := ws }
  | SpawnOutcome.ran out =>
      if out.exitCode = 0 then
        { result := Except.ok (), spawns := [args], warnings := ws }
      else
        { result := Except.error LaunchError.ProcessFailed
          spawns := [args]
          warnings := ws ++ [Warning.processNonZero out.exitCode] ++
            (if out.stderr = "" then [] else [Warning.processStderr out.stderr]) }

/-- Translation of `launch_rom` (`rom_launcher.rs`): precondition checks
on the emulator executable, argument construction, then process
execution.  `run` is the process oracle. -/
def launch_rom (fs : FS) (run : List String → SpawnOutcome)
    (emulator_path rom_path : RPath) (emulator_name : String)
    (core_path : Option RPath) (system_name : Option String) : LaunchResult :=
  if !fs.pathExists emulator_path then
    { result := Except.error LaunchError.NotFoundError, spawns := [], warnings := [] }
  else if !fs.isFile emulator_path then
    { result := Except.error LaunchError.InvalidInputError, spawns := [], warnings := [] }
  else
    match buildCommand fs emulator_name rom_path core_path system_name with
    | BuildOutcome.fail e ws =>
        { result := Except.error e, spawns := [], warnings := ws }
    | BuildOutcome.built args ws => runCommand run args ws

/-- A discovered ROM file (`rom_scanner.rs`). -/
structure Rom where
  path : RPath
deriving DecidableEq, Repr

/-- Model of `Rom::get_extension`. -/
def Rom.get_extension (r : Rom) : Option String :=
  r.path.extension

/-- Is a file's extension in the supported list?  Mirrors the inner check
of `RomScanner::scan_roms`: present extension compared to each supported
one with `eq_ignore_ascii_case`; no extension means not supported. -/
def extSupported (supported_extensions : List String) (path : RPath) : Bool :=
  match path.extension with
  | some ext => supported_extensions.any (fun e => eq_ignore_ascii_case e ext)
  | none => false

/-- Translation of `RomScanner::scan_roms` (`rom_scanner.rs` lines
41–82): fail when the base directory is missing or not a directory, else
keep, of the walked entries, the regular files with a supported
extension. -/
def scan_roms (fs : FS) (base_dir : RPath)
    (supported_extensions : List String) : Except LaunchError (List Rom) :=
  if !fs.pathExists base_dir then
    Except.error LaunchError.NotFoundError
  else if !fs.isDir base_dir then
    Except.error LaunchError.InvalidInputError
  else
    Except.ok (((fs.walk base_dir).filter
      (fun path => fs.isFile path && extSupported supported_extensions path)).map Rom.mk)

/-- An emulator configuration record (`emulator_config.rs`). -/
structure Emulator where
  name : String
  path : RPath
  extensions : List String
  core_path : Option RPath
  system_name : Option String
deriving DecidableEq, Repr

/-- Model of `HashMap::entry(key).or_insert(value)` on an association
list: keep the map unchanged when the key is present, append the binding
when it is absent. -/
def orInsert (m : List (String × Emulator)) (key : String) (e : Emulator) :
    List (String × Emulator) :=
  if (m.lookup key).isSome then m else m ++ [(key, e)]

/-- Translation of the extension-map construction in `main.rs` lines
50–57: iterate the emulators in registration order and, for each declared
extension, insert the lowercased extension only if absent. -/
def extension_to_emulator (emulators : List Emulator) : List (String × Emulator) :=
  emulators.foldl
    (fun m e => e.extensions.foldl (fun m2 ext => orInsert m2 (to_lowercase ext) e) m)
    []

/-- Translation of the map lookup in `main.rs` (lines 122–123): the
ROM's extension is lowercased and looked up in the extension map. -/
def lookup_emulator (emulators : List Emulator) (ext : String) : Option Emulator :=
  (extension_to_emulator emulators).lookup (to_lowercase ext)

/-- Modelled from the spec: "the extension map resolves to the first one
in registration order" — the first registered emulator declaring the
extension, compared case-insensitively.  Stated from the spec's words to
be compared with `lookup_emulator`. -/
def first_declaring (emulators : List Emulator) (ext : String) : Option Emulator :=
  emulators.find?
    (fun e => e.extensions.any (fun d => to_lowercase d == to_lowercase ext))

/-! Concrete fixtures used to evaluate the theorems on closed inputs. -/

/-- Example executable path `/mame`. -/
def exeP : RPath := ⟨[Component.rootDir, Component.normal "mame"]⟩

/-- Example directory `/roms`. -/
def romsDirP : RPath := ⟨[Component.rootDir, Component.normal "roms"]⟩

/-- Example ROM path `/roms/pacman.zip`. -/
def pacmanP : RPath :=
  ⟨[Component.rootDir, Component.normal "roms", Component.normal "pacman.zip"]⟩

/-- Example ROM path `/roms/sonic.bin`. -/
def sonicP : RPath :=
  ⟨[Component.rootDir, Component.normal "roms", Component.normal "sonic.bin"]⟩

/-- Example core path `/cores/snes9x.so`. -/
def coreP : RPath :=
  ⟨[Component.rootDir, Component.normal "cores", Component.normal "snes9x.so"]⟩

/-- Example extensionless file `/roms/README`. -/
def readmeP : RPath :=
  ⟨[Component.rootDir, Component.normal "roms", Component.normal "README"]⟩

/-- Example ROM path `/roms/mario.sfc` (never checked on disk by the
launcher). -/
def marioP : RPath :=
  ⟨[Component.rootDir, Component.normal "roms", Component.normal "mario.sfc"]⟩

/-- Example filesystem: one emulator executable, one ROM directory
holding two regular files, and no RetroArch core. -/
def fsEx : FS :=
  { lookup := fun p =>
      if p = exeP then some FileType.file
      else if p = romsDirP then some FileType.dir
      else if p = pacmanP then some FileType.file
      else if p = sonicP then some FileType.file
      else if p = readmeP then some FileType.file
      else none
    walk := fun p => if p = romsDirP then [romsDirP, pacmanP, sonicP, readmeP] else [] }

/-- Process oracle whose process always exits cleanly. -/
def runZero : List String → SpawnOutcome :=
  fun _ => SpawnOutcome.ran ⟨0, ""⟩

/-- Process oracle whose process always exits with status 1 and an error
message on stderr. -/
def runOne : List String → SpawnOutcome :=
  fun _ => SpawnOutcome.ran ⟨1, "boom"⟩

/-! Helper lemmas about the model. -/

lemma FS.pathExists_of_lookup {fs : FS} {p : RPath} {t : FileType}
    (h : fs.lookup p = some t) : fs.pathExists p = true := by
  simp [FS.pathExists, h]

lemma FS.isFile_true_of_lookup {fs : FS} {p : RPath}
    (h : fs.lookup p = some FileType.file) : fs.isFile p = true := by
  simp [FS.isFile, h]

lemma FS.isFile_iff {fs : FS} {p : RPath} :
    fs.isFile p = true ↔ fs.lookup p = some FileType.file := by
  unfold FS.isFile
  cases h : fs.lookup p with
  | none => simp
  | some t => cases t <;> simp

lemma FS.isDir_iff {fs : FS} {p : RPath} :
    fs.isDir p = true ↔ fs.lookup p = some FileType.dir := by
  unfold FS.isDir
  cases h : fs.lookup p with
  | none => simp
  | some t => cases t <;> simp

/-- When the emulator executable is a regular file, `launch_rom` reduces
to building the command and handing it to the process stage. -/
lemma launch_rom_eq_of_file {fs : FS} {exe : RPath}
    (run : List String → SpawnOutcome) (rom : RPath) (name : String)
    (core : Option RPath) (sys : Option String)
    (hexe : fs.lookup exe = some FileType.file) :
    launch_rom fs run exe rom name core sys =
      match buildCommand fs name rom core sys with
      | BuildOutcome.fail e ws =>
          { result := Except.error e, spawns := [], warnings := ws }
      | BuildOutcome.built args ws => runCommand run args ws := by
  unfold launch_rom
  rw [FS.pathExists_of_lookup hexe, FS.isFile_true_of_lookup hexe]
  simp

/-- When the executable checks pass and the argument vector is built,
the launch is exactly the process stage on that vector. -/
lemma launch_rom_built {fs : FS} {exe : RPath}
    (run : List String → SpawnOutcome) (rom : RPath) (name : String)
    (core : Option RPath) (sys : Option String) {args : List String}
    {ws : List Warning}
    (hexe : fs.lookup exe = some FileType.file)
    (hb : buildCommand fs name rom core sys = BuildOutcome.built args ws) :
    launch_rom fs run exe rom name core sys = runCommand run args ws := by
  rw [launch_rom_eq_of_file run rom name core sys hexe, hb]

lemma runCommand_spawns (run : List String → SpawnOutcome)
    (args : List String) (ws : List Warning) :
    (runCommand run args ws).spawns = [args] := by
  unfold runCommand
  cases run args with
  | spawnErr => rfl
  | ran out =>
    by_cases h : out.exitCode = 0 <;> simp [h]

lemma runCommand_result_cases (run : List String → SpawnOutcome)
    (args : List String) (ws : List Warning) (e : LaunchError)
    (h : (runCommand run args ws).result = Except.error e) :
    e = LaunchError.SpawnFailed ∨ e = LaunchError.ProcessFailed := by
  unfold runCommand at h
  split at h
  · simp at h
    exact Or.inl h.symm
  · split at h
    · simp at h
    · simp at h
      exact Or.inr h.symm

lemma runCommand_warnings_sub (run : List String → SpawnOutcome)
    (args : List String) (ws : List Warning) {w : Warning} (hw : w ∈ ws) :
    w ∈ (runCommand run args ws).warnings := by
  unfold runCommand
  cases run args with
  | spawnErr => exact hw
  | ran out =>
    by_cases hc : out.exitCode = 0
    · simp [hc]
      exact hw
    · simp [hc, List.mem_append]
      exact Or.inl hw

/-- A path with a normal final component has a parent: the path made of
all but that component. -/
lemma RPath.parent_of_file_name {p : RPath} {n : String}
    (h : p.file_name = some n) :
    p.parent = some ⟨p.components.dropLast⟩ := by
  obtain ⟨comps⟩ := p
  simp only [RPath.file_name] at h
  rcases comps with _ | ⟨a, _ | ⟨b, rest⟩⟩
  · simp at h
  · cases a
    · simp at h
    · rfl
    · rfl
    · rfl
  · cases a <;> rfl

lemma RPath.parent_eq_none_iff (p : RPath) :
    p.parent = none ↔
      p.components = [] ∨ p.components = [Component.rootDir] := by
  obtain ⟨comps⟩ := p
  rcases comps with _ | ⟨a, _ | ⟨b, rest⟩⟩
  · simp [RPath.parent]
  · cases a <;> simp [RPath.parent]
  · cases a <;> simp [RPath.parent]

/-- C5: a missing emulator executable fails the launch with
`NotFoundError`, and an existing one that is not a regular file fails it
with `InvalidInputError`; in both cases no process is spawned. -/
theorem launch_preconditions (fs : FS) (run : List String → SpawnOutcome)
    (exe rom : RPath) (name : String) (core : Option RPath)
    (sys : Option String) :
    (fs.lookup exe = none →
      (launch_rom fs run exe rom name core sys).result =
          Except.error LaunchError.NotFoundError ∧
      (launch_rom fs run exe rom name core sys).spawns = []) ∧
    (∀ t, fs.lookup exe = some t → t ≠ FileType.file →
      (launch_rom fs run exe rom name core sys).result =
          Except.error LaunchError.InvalidInputError ∧
      (launch_rom fs run exe rom name core sys).spawns = []) := by
  constructor
  · intro h
    simp [launch_rom, FS.pathExists, h]
  · intro t ht hne
    have h1 : fs.pathExists exe = true := FS.pathExists_of_lookup ht
    have h2 : fs.isFile exe = false := by
      unfold FS.isFile
      rw [ht]
      cases t
      · exact absurd rfl hne
      · rfl
      · rfl
    simp [launch_rom, h1, h2]

/-- Witness for C5 on concrete inputs: a path that is not in the
filesystem, and the ROMs directory used as the executable. -/
theorem launch_preconditions_witness :
    (launch_rom fsEx runZero ⟨[Component.rootDir, Component.normal "nope"]⟩
        pacmanP "mame" none none).result =
      Except.error LaunchError.NotFoundError ∧
    (launch_rom fsEx runZero romsDirP pacmanP "mame" none none).result =
      Except.error LaunchError.InvalidInputError :=
  ⟨((launch_preconditions fsEx runZero ⟨[Component.rootDir, Component.normal "nope"]⟩
      pacmanP "mame" none none).1 (by decide)).1,
   ((launch_preconditions fsEx runZero romsDirP pacmanP "mame" none none).2
      FileType.dir (by decide) (by decide)).1⟩

/-- C6: convention selection is first-match-wins with MAME checked
first: a name containing both trigger substrings behaves exactly as the
name "mame" does. -/
theorem mame_branch_wins (fs : FS) (run : List String → SpawnOutcome)
    (exe rom : RPath) (name : String) (core : Option RPath)
    (sys : Option String)
    (hm : containsSub (to_lowercase name) "mame" = true)
    (hr : containsSub (to_lowercase name) "retroarch" = true) :
    launch_rom fs run exe rom name core sys =
      launch_rom fs run exe rom "mame" core sys := by
  have h1 : containsSub (to_lowercase "mame") "mame" = true := by decide
  simp [launch_rom, buildCommand, hm, h1]

/-- Witness for C6: the name "MameRetroArch" contains both substrings
and follows the MAME branch. -/
theorem mame_branch_wins_witness :
    launch_rom fsEx runZero exeP pacmanP "MameRetroArch" (some coreP)
        (some "genesis") =
      launch_rom fsEx runZero exeP pacmanP "mame" (some coreP)
        (some "genesis") :=
  mame_branch_wins fsEx runZero exeP pacmanP "MameRetroArch" (some coreP)
    (some "genesis") (by decide) (by decide)

/-- C2: a MAME-named emulator with a system short name builds the
argument vector [system, "-cart", rom path], the ROM path verbatim and
in full as the third argument. -/
theorem mame_console_argv (fs : FS) (run : List String → SpawnOutcome)
    (exe rom : RPath) (name : String) (core : Option RPath) (sys : String)
    (hexe : fs.lookup exe = some FileType.file)
    (hname : containsSub (to_lowercase name) "mame" = true) :
    (launch_rom fs run exe rom name core (some sys)).spawns =
      [[sys, "-cart", rom.toString]] := by
  rw [launch_rom_eq_of_file run rom name core (some sys) hexe]
  simp [buildCommand, hname, runCommand_spawns]

/-- Witness for C2: the spec's console-mode example
`/roms/sonic.bin` with system "genesis". -/
theorem mame_console_argv_witness :
    (launch_rom fsEx runZero exeP sonicP "MAME" none (some "genesis")).spawns =
      [["genesis", "-cart", "/roms/sonic.bin"]] :=
  (mame_console_argv fsEx runZero exeP sonicP "MAME" none "genesis"
    (by decide) (by decide)).trans (by rfl)

lemma RPath.file_stem_eq_some {p : RPath} {stem : String}
    (h : p.file_stem = some stem) :
    ∃ n, p.file_name = some n ∧ (splitStemExt n).1 = stem := by
  unfold RPath.file_stem at h
  cases hn : p.file_name with
  | none => rw [hn] at h; simp at h
  | some n =>
    rw [hn] at h
    simp at h
    exact ⟨n, rfl, h⟩

lemma runCommand_noParentDir (run : List String → SpawnOutcome)
    (args : List String) (ws : List Warning) :
    Warning.noParentDir ∈ (runCommand run args ws).warnings ↔
      Warning.noParentDir ∈ ws := by
  unfold runCommand
  cases run args with
  | spawnErr => exact Iff.rfl
  | ran out =>
    by_cases hc : out.exitCode = 0
    · simp [hc]
    · by_cases hs : out.stderr = "" <;> simp [hc, hs]

/-- C1: a MAME-named emulator without a system short name (arcade mode)
builds the argument vector ["-rompath", parent dir, file stem] whenever
the ROM path has a file stem, and fails with `InvalidInputError` before
spawning anything when it has none. -/
theorem mame_arcade_argv (fs : FS) (run : List String → SpawnOutcome)
    (exe rom : RPath) (name : String) (core : Option RPath)
    (hexe : fs.lookup exe = some FileType.file)
    (hname : containsSub (to_lowercase name) "mame" = true) :
    (∀ stem, rom.file_stem = some stem →
      ∃ p, rom.parent = some p ∧
        (launch_rom fs run exe rom name core none).spawns =
          [["-rompath", p.toString, stem]]) ∧
    (rom.file_stem = none →
      (launch_rom fs run exe rom name core none).result =
          Except.error LaunchError.InvalidInputError ∧
      (launch_rom fs run exe rom name core none).spawns = []) := by
  rw [launch_rom_eq_of_file run rom name core none hexe]
  constructor
  · intro stem hstem
    obtain ⟨n, hn, hsn⟩ := RPath.file_stem_eq_some hstem
    have hp := RPath.parent_of_file_name hn
    refine ⟨⟨rom.components.dropLast⟩, hp, ?_⟩
    simp [buildCommand, hname, hp, hstem, runCommand_spawns]
  · intro hstem
    rcases hpar : rom.parent with _ | q
    · simp [buildCommand, hname, hpar, hstem]
    · simp [buildCommand, hname, hpar, hstem]

/-- Witness for C1: the spec's arcade-mode example `/roms/pacman.zip`,
and the stem-less path `/`. -/
theorem mame_arcade_argv_witness :
    (∃ p, pacmanP.parent = some p ∧
      (launch_rom fsEx runZero exeP pacmanP "MAME" none none).spawns =
        [["-rompath", p.toString, "pacman"]]) ∧
    (launch_rom fsEx runZero exeP ⟨[Component.rootDir]⟩ "MAME" none
        none).result = Except.error LaunchError.InvalidInputError :=
  ⟨(mame_arcade_argv fsEx runZero exeP pacmanP "MAME" none
      (by decide) (by decide)).1 "pacman" (by decide),
   ((mame_arcade_argv fsEx runZero exeP ⟨[Component.rootDir]⟩ "MAME" none
      (by decide) (by decide)).2 (by decide)).1⟩

/-- C10: in MAME arcade mode every ROM path with a file name component
yields an argument vector starting with "-rompath" and the parent path
(the empty string for a bare file name); the warn-and-omit branch is
reached exactly when the path has no parent, which happens exactly for a
root or empty path. -/
theorem mame_arcade_rompath (fs : FS) (run : List String → SpawnOutcome)
    (exe rom : RPath) (name : String) (core : Option RPath)
    (hexe : fs.lookup exe = some FileType.file)
    (hname : containsSub (to_lowercase name) "mame" = true) :
    (∀ n, rom.file_name = some n →
      (launch_rom fs run exe rom name core none).spawns =
        [["-rompath", RPath.toString ⟨rom.components.dropLast⟩,
          (splitStemExt n).1]]) ∧
    (∀ n, rom.components = [Component.normal n] →
      rom.parent = some ⟨[]⟩ ∧ RPath.toString ⟨([] : List Component)⟩ = "") ∧
    (Warning.noParentDir ∈ (launch_rom fs run exe rom name core none).warnings ↔
      rom.parent = none) ∧
    (rom.parent = none ↔
      rom.components = [] ∨ rom.components = [Component.rootDir]) := by
  rw [launch_rom_eq_of_file run rom name core none hexe]
  refine ⟨?_, ?_, ?_, RPath.parent_eq_none_iff rom⟩
  · intro n hn
    have hp := RPath.parent_of_file_name hn
    have hstem : rom.file_stem = some (splitStemExt n).1 := by
      simp [RPath.file_stem, hn]
    simp [buildCommand, hname, hp, hstem, runCommand_spawns]
  · intro n hc
    constructor
    · simp [RPath.parent, hc]
    · rfl
  · rcases hq : rom.parent with _ | q
    · have hcomp := (RPath.parent_eq_none_iff rom).mp hq
      have hfn : rom.file_name = none := by
        rcases hcomp with h | h <;> simp [RPath.file_name, h]
      have hstem : rom.file_stem = none := by simp [RPath.file_stem, hfn]
      simp [buildCommand, hname, hq, hstem]
    · rcases hstem : rom.file_stem with _ | stem
      · simp [buildCommand, hname, hq, hstem]
      · simp [buildCommand, hname, hq, hstem, runCommand_noParentDir]

/-- Witness for C10: the bare relative file name `pacman.zip` gets
"-rompath" with the empty parent string and no warning. -/
theorem mame_arcade_rompath_witness :
    (launch_rom fsEx runZero exeP ⟨[Component.normal "pacman.zip"]⟩ "MAME"
        none none).spawns = [["-rompath", "", "pacman"]] :=
  ((mame_arcade_rompath fsEx runZero exeP ⟨[Component.normal "pacman.zip"]⟩
      "MAME" none (by decide) (by decide)).1 "pacman.zip" (by decide)).trans
    (by rfl)

/-- C3: a RetroArch-named (non-MAME) emulator with a configured core
builds ["-L", core, rom]; a missing or non-regular core is only warned
about, the spawn is still attempted, and no pre-spawn error occurs. -/
theorem retroarch_core_argv (fs : FS) (run : List String → SpawnOutcome)
    (exe rom : RPath) (name : String) (core : RPath) (sys : Option String)
    (hexe : fs.lookup exe = some FileType.file)
    (hm : containsSub (to_lowercase name) "mame" = false)
    (hr : containsSub (to_lowercase name) "retroarch" = true) :
    (launch_rom fs run exe rom name (some core) sys).spawns =
      [["-L", core.toString, rom.toString]] ∧
    (fs.isFile core = false →
      Warning.coreMissing core ∈
        (launch_rom fs run exe rom name (some core) sys).warnings) ∧
    (∀ e, (launch_rom fs run exe rom name (some core) sys).result =
        Except.error e →
      e = LaunchError.SpawnFailed ∨ e = LaunchError.ProcessFailed) := by
  rw [launch_rom_eq_of_file run rom name (some core) sys hexe]
  refine ⟨?_, ?_, ?_⟩
  · simp [buildCommand, hm, hr, runCommand_spawns]
  · intro hcore
    have hws : (if !fs.pathExists core || !fs.isFile core
        then [Warning.coreMissing core] else []) = [Warning.coreMissing core] := by
      simp [hcore]
    simp only [buildCommand, hm, hr, Bool.false_eq_true, if_false, if_true, hws]
    exact runCommand_warnings_sub run _ _ (by simp)
  · intro e he
    simp only [buildCommand, hm, hr, Bool.false_eq_true, if_false, if_true] at he
    exact runCommand_result_cases run _ _ e he

/-- Witness for C3: the spec's RetroArch example with a core path that
does not exist in the example filesystem. -/
theorem retroarch_core_argv_witness :
    (launch_rom fsEx runZero exeP marioP "RetroArch" (some coreP)
        none).spawns = [["-L", "/cores/snes9x.so", "/roms/mario.sfc"]] ∧
    Warning.coreMissing coreP ∈
      (launch_rom fsEx runZero exeP marioP "RetroArch" (some coreP)
        none).warnings := by
  have h := retroarch_core_argv fsEx runZero exeP marioP "RetroArch" coreP
    none (by decide) (by decide) (by decide)
  exact ⟨h.1.trans (by rfl), h.2.1 (by decide)⟩

/-- C7: an emulator whose name matches neither trigger, and a RetroArch
emulator without a configured core, both get exactly the argument vector
[rom path]. -/
theorem generic_argv (fs : FS) (run : List String → SpawnOutcome)
    (exe rom : RPath) (name : String) (core : Option RPath)
    (sys : Option String)
    (hexe : fs.lookup exe = some FileType.file)
    (hm : containsSub (to_lowercase name) "mame" = false) :
    (containsSub (to_lowercase name) "retroarch" = false →
      (launch_rom fs run exe rom name core sys).spawns = [[rom.toString]]) ∧
    (containsSub (to_lowercase name) "retroarch" = true →
      (launch_rom fs run exe rom name none sys).spawns = [[rom.toString]]) := by
  constructor
  · intro hr
    rw [launch_rom_eq_of_file run rom name core sys hexe]
    simp [buildCommand, hm, hr, runCommand_spawns]
  · intro hr
    rw [launch_rom_eq_of_file run rom name none sys hexe]
    simp [buildCommand, hm, hr, runCommand_spawns]

/-- Witness for C7: the generic name "snes9x" (with a core configured,
which is ignored) and "RetroArch" without a core. -/
theorem generic_argv_witness :
    (launch_rom fsEx runZero exeP marioP "snes9x" (some coreP) none).spawns =
      [["/roms/mario.sfc"]] ∧
    (launch_rom fsEx runZero exeP marioP "RetroArch" none none).spawns =
      [["/roms/mario.sfc"]] :=
  ⟨((generic_argv fsEx runZero exeP marioP "snes9x" (some coreP) none
      (by decide) (by decide)).1 (by decide)).trans (by rfl),
   ((generic_argv fsEx runZero exeP marioP "RetroArch" none none
      (by decide) (by decide)).2 (by decide)).trans (by rfl)⟩

/-- C4: when the spawned process terminates, the launch succeeds exactly
on a zero exit status; a non-zero status yields `ProcessFailed` with the
non-empty stderr text among the displayed diagnostics, and the process
is spawned exactly once (no retry). -/
theorem launch_exit_status (fs : FS) (run : List String → SpawnOutcome)
    (exe rom : RPath) (name : String) (core : Option RPath)
    (sys : Option String) (args : List String) (ws : List Warning)
    (out : ProcessOutput)
    (hexe : fs.lookup exe = some FileType.file)
    (hb : buildCommand fs name rom core sys = BuildOutcome.built args ws)
    (hrun : run args = SpawnOutcome.ran out) :
    ((launch_rom fs run exe rom name core sys).result = Except.ok () ↔
      out.exitCode = 0) ∧
    (out.exitCode ≠ 0 →
      (launch_rom fs run exe rom name core sys).result =
          Except.error LaunchError.ProcessFailed ∧
      (out.stderr ≠ "" →
        Warning.processStderr out.stderr ∈
          (launch_rom fs run exe rom name core sys).warnings)) ∧
    (launch_rom fs run exe rom name core sys).spawns = [args] := by
  rw [launch_rom_built run rom name core sys hexe hb]
  unfold runCommand
  rw [hrun]
  by_cases hc : out.exitCode = 0
  · simp [hc]
  · refine ⟨by simp [hc], fun _ => ⟨by simp [hc], fun hs => ?_⟩, by simp [hc]⟩
    simp [hc, hs, List.mem_append]

/-- Witness for C4: a process exiting with status 1 and stderr "boom"
under the generic convention. -/
theorem launch_exit_status_witness :
    ((launch_rom fsEx runOne exeP marioP "snes9x" none none).result =
        Except.ok () ↔ (1 : Int) = 0) ∧
    (launch_rom fsEx runOne exeP marioP "snes9x" none none).result =
      Except.error LaunchError.ProcessFailed ∧
    Warning.processStderr "boom" ∈
      (launch_rom fsEx runOne exeP marioP "snes9x" none none).warnings := by
  have h := launch_exit_status fsEx runOne exeP marioP "snes9x" none none
    ["/roms/mario.sfc"] [] ⟨1, "boom"⟩ (by decide) (by decide) rfl
  exact ⟨h.1, (h.2.1 (by decide)).1, (h.2.1 (by decide)).2 (by decide)⟩

lemma lookup_append_single (m : List (String × Emulator)) (k key : String)
    (e : Emulator) :
    (m ++ [(k, e)]).lookup key =
      match m.lookup key with
      | some v => some v
      | none => if key == k then some e else none := by
  induction m with
  | nil => cases h : key == k <;> simp [List.lookup, h]
  | cons a m ih =>
    obtain ⟨ak, av⟩ := a
    cases h : key == ak <;> simp [List.lookup, h, ih]

lemma orInsert_lookup (m : List (String × Emulator)) (k key : String)
    (e : Emulator) :
    (orInsert m k e).lookup key =
      match m.lookup key with
      | some v => some v
      | none => if key == k then some e else none := by
  unfold orInsert
  by_cases hk : (m.lookup k).isSome
  · rw [if_pos hk]
    cases hm : m.lookup key with
    | some w => simp
    | none =>
      have hne : (key == k) = false := by
        apply beq_eq_false_iff_ne.mpr
        intro hEq
        rw [← hEq, hm] at hk
        simp at hk
      simp [hne]
  · rw [if_neg hk]
    exact lookup_append_single m k key e

lemma foldl_orInsert_lookup (e : Emulator) (key : String) :
    ∀ (exts : List String) (m : List (String × Emulator)),
    (exts.foldl (fun m2 ext => orInsert m2 (to_lowercase ext) e) m).lookup key =
      match m.lookup key with
      | some v => some v
      | none =>
        if exts.any (fun d => to_lowercase d == key) then some e else none := by
  intro exts
  induction exts with
  | nil =>
    intro m
    cases hm : m.lookup key <;> simp [hm]
  | cons x xs ih =>
    intro m
    rw [List.foldl_cons, ih, orInsert_lookup]
    cases hm : m.lookup key with
    | some v => simp
    | none =>
      cases hx : (key == to_lowercase x) with
      | true =>
        have hx' : (to_lowercase x == key) = true := by
          rw [beq_iff_eq] at hx ⊢
          exact hx.symm
        simp [hx, hx']
      | false =>
        have hx' : (to_lowercase x == key) = false := by
          rw [beq_eq_false_iff_ne] at hx ⊢
          exact fun h => hx h.symm
        simp [hx, hx']

lemma foldl_emulators_lookup (key : String) :
    ∀ (emus : List Emulator) (m : List (String × Emulator)),
    (emus.foldl
        (fun m e =>
          e.extensions.foldl (fun m2 ext => orInsert m2 (to_lowercase ext) e) m)
        m).lookup key =
      match m.lookup key with
      | some v => some v
      | none =>
        emus.find? (fun e => e.extensions.any (fun d => to_lowercase d == key)) := by
  intro emus
  induction emus with
  | nil =>
    intro m
    cases hm : m.lookup key <;> simp [hm]
  | cons e es ih =>
    intro m
    rw [List.foldl_cons, ih, foldl_orInsert_lookup]
    cases hm : m.lookup key with
    | some v => simp
    | none =>
      cases he : e.extensions.any (fun d => to_lowercase d == key) <;>
        simp [List.find?, he]

/-- C8: the derived extension map resolves an extension, compared
case-insensitively, to the first emulator in registration order that
declares it; later registrations never override it. -/
theorem extension_map_first_wins (emulators : List Emulator) (ext : String) :
    lookup_emulator emulators ext = first_declaring emulators ext := by
  unfold lookup_emulator extension_to_emulator first_declaring
  rw [foldl_emulators_lookup (to_lowercase ext) emulators []]
  simp [List.lookup]

lemma extSupported_iff (sup : List String) (p : RPath) :
    extSupported sup p = true ↔
      ∃ e, p.extension = some e ∧
        ∃ s ∈ sup, eq_ignore_ascii_case s e = true := by
  unfold extSupported
  cases h : p.extension with
  | none => simp [h]
  | some e => simp [h, List.any_eq_true]

/-- C9: scanning fails with `NotFoundError` for a missing root and
`InvalidInputError` for a non-directory root; otherwise it returns
exactly the walked regular files whose extension matches the allow-list
case-insensitively, excluding extensionless and unsupported files. -/
theorem scan_roms_spec (fs : FS) (root : RPath) (sup : List String) :
    (fs.lookup root = none →
      scan_roms fs root sup = Except.error LaunchError.NotFoundError) ∧
    (∀ t, fs.lookup root = some t → t ≠ FileType.dir →
      scan_roms fs root sup = Except.error LaunchError.InvalidInputError) ∧
    (∀ roms, scan_roms fs root sup = Except.ok roms →
      ∀ p : RPath, Rom.mk p ∈ roms ↔
        (p ∈ fs.walk root ∧ fs.lookup p = some FileType.file ∧
          ∃ e, p.extension = some e ∧
            ∃ s ∈ sup, eq_ignore_ascii_case s e = true)) := by
  refine ⟨?_, ?_, ?_⟩
  · intro h
    simp [scan_roms, FS.pathExists, h]
  · intro t ht hne
    have h1 : fs.pathExists root = true := FS.pathExists_of_lookup ht
    have h2 : fs.isDir root = false := by
      unfold FS.isDir
      rw [ht]
      cases t
      · rfl
      · exact absurd rfl hne
      · rfl
    simp [scan_roms, h1, h2]
  · intro roms hok p
    unfold scan_roms at hok
    by_cases h1 : fs.pathExists root = true
    · by_cases h2 : fs.isDir root = true
      · simp only [h1, h2, Bool.not_true, Bool.false_eq_true, if_false] at hok
        obtain rfl := Except.ok.inj hok
        simp [List.mem_map, List.mem_filter, Rom.mk.injEq, Bool.and_eq_true,
          FS.isFile_iff, extSupported_iff]
      · simp [h1, Bool.eq_false_iff.mpr h2] at hok
    · simp [Bool.eq_false_iff.mpr h1] at hok

/-- Witness for C9: `/roms/pacman.zip` is returned by a scan of `/roms`
for the allow-list containing "zip". -/
theorem scan_roms_spec_witness :
    Rom.mk pacmanP ∈ [Rom.mk pacmanP] ↔
      (pacmanP ∈ fsEx.walk romsDirP ∧
        fsEx.lookup pacmanP = some FileType.file ∧
        ∃ e, pacmanP.extension = some e ∧
          ∃ s ∈ ["zip"], eq_ignore_ascii_case s e = true) :=
  (scan_roms_spec fsEx romsDirP ["zip"]).2.2 [Rom.mk pacmanP] (by rfl) pacmanP
